import Mathlib

/-!
# Verification of the Intcode virtual machine (`src/2019/intcode/src/program.rs`)

Shallow embedding of the Intcode VM of this repository. Cells are 64-bit
signed integers in the source (`pub type Int = i64`), modelled as `Int`;
addresses are Rust `usize`, modelled as `Nat`, with the Rust `as usize`
wrapping cast on an `i64` made explicit as reduction modulo `2^64`.

The source panics (`panic!`, `Vec` index out of bounds) and can block on
interactive terminal input; these exits are modelled as `Except` error
values tagged so that a panic (an uncontrolled process abort) stays
distinguishable from a condition a caller could handle.
-/

namespace Intcode

/-- Parameter addressing mode, `Mode` in `opcode.rs` (the source spells
Immediate as `Inmediate`; the spelling is kept). -/
inductive Mode
  | Inmediate
  | Position
  | Relative
deriving DecidableEq, Repr

/-- The opcode variant (`Opcode` in `opcode.rs`), each constructor carrying
the addressing mode of each of its parameters. -/
inductive Opcode
  | Add (m0 m1 m2 : Mode)
  | Multiply (m0 m1 m2 : Mode)
  | Input (m0 : Mode)
  | Output (m0 : Mode)
  | JumpIfTrue (m0 m1 : Mode)
  | JumpIfFalse (m0 m1 : Mode)
  | LessThan (m0 m1 m2 : Mode)
  | Equals (m0 m1 m2 : Mode)
  | SetRelBase (m0 : Mode)
  | Halt
deriving DecidableEq, Repr

/-- How an execution path ends abnormally. The `panic…` variants model Rust
`panic!` or a `Vec` indexing abort: an uncontrolled process abort, not a
structured error returned to the caller. `needInput` models the point where
the source would block on the interactive terminal fallback (out of scope of
the pure model). -/
inductive Err
  | panicInvalidWriteMode
  | panicUnknownOpcode
  | panicIndexOutOfBounds
  | needInput
deriving DecidableEq, Repr

/-- `true` exactly on the variants that model an uncontrolled process abort
(`panic!` or an indexing panic) in the source. -/
def Err.isPanic : Err → Bool
  | .panicInvalidWriteMode => true
  | .panicUnknownOpcode => true
  | .panicIndexOutOfBounds => true
  | .needInput => false

/-- The Rust `as usize` cast of an `i64`: a wrapping conversion, i.e. the
value modulo `2^64` (`Int.emod` is non-negative for a positive modulus). -/
def toAddr (x : Int) : Nat := (x % (2 : Int) ^ 64).toNat

/-- The VM state: `Program<S, R>` of `program.rs`. `mem` is the primary
`Vec<Int>`; `aux_mem` models the `HashMap<usize, Int>` `aux_mem` as an
association list whose lookup takes the most recent insertion, which is
observationally the map's get-after-insert behaviour. The receiver is
modelled as the list of values it will yield (`input`), the sender as the
list of values received so far (`output`). -/
structure Program where
  mem : List Int
  aux_mem : List (Nat × Int)
  pointer : Nat
  rel_base : Int
  input : List Int
  output : List Int
deriving DecidableEq, Repr

/-- `aux_mem.get(&p).unwrap_or(&0)`: the most recently inserted value at
key `p`, or `0` when the key is absent. -/
def auxGet : List (Nat × Int) → Nat → Int
  | [], _ => 0
  | (q, v) :: rest, p => if q = p then v else auxGet rest p

/-- `Program::read`: primary region below the initial length, sparse
auxiliary map at or beyond it. -/
def Program.read (s : Program) (p : Nat) : Int :=
  if p < s.mem.length then s.mem.getD p 0 else auxGet s.aux_mem p

/-- `Program::write`: same routing as `read`; an auxiliary write is a map
insertion (modelled by consing, which shadows any earlier binding). -/
def Program.write (s : Program) (p : Nat) (v : Int) : Program :=
  if p < s.mem.length then { s with mem := s.mem.set p v }
  else { s with aux_mem := (p, v) :: s.aux_mem }

/-- `Program::get_relative_position`: resolves the write address of the
parameter at `pointer + offset`. Immediate mode panics in the source
(`panic!("Inmediate mode in output arg WTF")`). -/
def Program.get_relative_position (s : Program) (offset : Nat) (m : Mode) :
    Except Err Nat :=
  let literal := s.read (s.pointer + offset)
  match m with
  | .Inmediate => .error .panicInvalidWriteMode
  | .Position => .ok (toAddr literal)
  | .Relative => .ok (toAddr (s.rel_base + literal))

/-- `Program::get_param`: resolves a read operand; total. -/
def Program.get_param (s : Program) (position : Nat) (m : Mode) : Int :=
  let literal := s.read (s.pointer + position)
  match m with
  | .Inmediate => literal
  | .Position => s.read (toAddr literal)
  | .Relative => s.read (toAddr (s.rel_base + literal))

/-- `Program::execute`: dispatch to the per-opcode handlers
(`add`, `multiply`, `jump_if_true`, `jump_if_false`, `less_than`, `equals`,
`set_rel_base`, `input`, `output`, `halt` of `program.rs`). -/
def Program.execute (s : Program) (code : Opcode) : Except Err Program :=
  match code with
  | .Add m0 m1 m2 =>
    match s.get_relative_position 3 m2 with
    | .error e => .error e
    | .ok p =>
      .ok { s.write p (s.get_param 1 m0 + s.get_param 2 m1) with
            pointer := s.pointer + 4 }
  | .Multiply m0 m1 m2 =>
    match s.get_relative_position 3 m2 with
    | .error e => .error e
    | .ok p =>
      .ok { s.write p (s.get_param 1 m0 * s.get_param 2 m1) with
            pointer := s.pointer + 4 }
  | .JumpIfTrue m0 m1 =>
    .ok { s with pointer :=
            if s.get_param 1 m0 ≠ 0 then toAddr (s.get_param 2 m1)
            else s.pointer + 3 }
  | .JumpIfFalse m0 m1 =>
    .ok { s with pointer :=
            if s.get_param 1 m0 = 0 then toAddr (s.get_param 2 m1)
            else s.pointer + 3 }
  | .LessThan m0 m1 m2 =>
    match s.get_relative_position 3 m2 with
    | .error e => .error e
    | .ok p =>
      .ok { s.write p (if s.get_param 1 m0 < s.get_param 2 m1 then 1 else 0) with
            pointer := s.pointer + 4 }
  | .Equals m0 m1 m2 =>
    match s.get_relative_position 3 m2 with
    | .error e => .error e
    | .ok p =>
      .ok { s.write p (if s.get_param 1 m0 = s.get_param 2 m1 then 1 else 0) with
            pointer := s.pointer + 4 }
  | .SetRelBase m0 =>
    .ok { s with rel_base := s.rel_base + s.get_param 1 m0,
                 pointer := s.pointer + 2 }
  | .Input m0 =>
    match s.input with
    | [] => .error .needInput
    | n :: rest =>
      match s.get_relative_position 1 m0 with
      | .error e => .error e
      | .ok p =>
        .ok { s.write p n with input := rest, pointer := s.pointer + 2 }
  | .Output m0 =>
    .ok { s with output := s.output ++ [s.get_param 1 m0],
                 pointer := s.pointer + 2 }
  | .Halt => .ok s

/-- Modelled from the spec: the decoder lives in `opcode.rs`
(`Mode` digit decoding inside `from_num`), which is not among the provided
sources. Spec §4.2: mode digits are Position `0`, Immediate `1`,
Relative `2`; a missing digit defaults to Position. Any other digit has no
defined meaning, treated as the unrecognized-instruction panic. -/
def decodeMode : Nat → Option Mode
  | 0 => some .Position
  | 1 => some .Inmediate
  | 2 => some .Relative
  | _ => none

/-- Modelled from the spec: `from_num` of `opcode.rs` is not among the
provided sources. Spec §4.2: the raw value's last two decimal digits select
the opcode (01 Add, 02 Multiply, 03 Input, 04 Output, 05 JumpIfTrue,
06 JumpIfFalse, 07 LessThan, 08 Equals, 09 AdjustRelativeBase, 99 Halt);
the remaining digits, least significant first, give the modes of
parameters 1, 2, 3; an unrecognized tail is a fatal unrecognized-opcode
condition (a panic in the source, per spec §7 and §9). -/
def from_num (raw : Int) : Except Err Opcode :=
  if raw < 0 then .error .panicUnknownOpcode else
  let n := raw.toNat
  match decodeMode (n / 100 % 10), decodeMode (n / 1000 % 10),
        decodeMode (n / 10000 % 10) with
  | some m0, some m1, some m2 =>
    match n % 100 with
    | 1 => .ok (.Add m0 m1 m2)
    | 2 => .ok (.Multiply m0 m1 m2)
    | 3 => .ok (.Input m0)
    | 4 => .ok (.Output m0)
    | 5 => .ok (.JumpIfTrue m0 m1)
    | 6 => .ok (.JumpIfFalse m0 m1)
    | 7 => .ok (.LessThan m0 m1 m2)
    | 8 => .ok (.Equals m0 m1 m2)
    | 9 => .ok (.SetRelBase m0)
    | 99 => .ok Opcode.Halt
    | _ => .error .panicUnknownOpcode
  | _, _, _ => .error .panicUnknownOpcode

/-- One iteration of the body of `Program::run`: fetch the raw instruction
through `read` at the pointer, decode, execute. -/
def stepOnce (s : Program) : Except Err Program :=
  match from_num (s.read s.pointer) with
  | .error e => .error e
  | .ok op => s.execute op

/-- One iteration of the body of `Program::run_debug_mode`: the fetch is
`self.mem[self.pointer]`, a direct index into the primary region that
panics out of bounds, then the same decode and `execute`. -/
def stepDebug (s : Program) : Except Err Program :=
  match s.mem[s.pointer]? with
  | none => .error .panicIndexOutOfBounds
  | some raw =>
    match from_num raw with
    | .error e => .error e
    | .ok op => s.execute op

/-- `Program::run`, fuel-indexed: the do-while loop executes one
instruction per iteration and stops when an iteration leaves the pointer
unchanged. `none` means the fuel ran out before the loop stopped. -/
def run : Nat → Program → Option (Except Err Program)
  | 0, _ => none
  | fuel + 1, s =>
    match stepOnce s with
    | .error e => some (.error e)
    | .ok s2 => if s2.pointer = s.pointer then some (.ok s2) else run fuel s2

/-- `Program::new`: fresh VM over a program image and a receiver buffer,
pointer and relative base zero, empty auxiliary map and sender. -/
def mkProgram (prog : List Int) (input : List Int) : Program :=
  { mem := prog, aux_mem := [], pointer := 0, rel_base := 0,
    input := input, output := [] }

/-- Observation: memory cell `p` of a run that stopped normally. -/
def finalRead (r : Option (Except Err Program)) (p : Nat) : Option Int :=
  match r with
  | some (.ok m) => some (m.read p)
  | _ => none

/-- Observation: sender contents of a run that stopped normally. -/
def finalOutputs (r : Option (Except Err Program)) : Option (List Int) :=
  match r with
  | some (.ok m) => some m.output
  | _ => none

/-- A state whose pointer sits in the auxiliary region while a Halt
instruction is stored there: `run` reads it through `read`, the debug loop
indexes the primary `Vec` directly. -/
def debugDivergeProgram : Program :=
  { mem := [99], aux_mem := [(1, 99)], pointer := 1, rel_base := 0,
    input := [], output := [] }

/-! ## Helper lemmas -/

instance {ε α : Type} [DecidableEq ε] [DecidableEq α] :
    DecidableEq (Except ε α) := fun x y =>
  match x, y with
  | .error a, .error b =>
    if h : a = b then .isTrue (by rw [h]) else .isFalse (by simp [h])
  | .error _, .ok _ => .isFalse (by simp)
  | .ok _, .error _ => .isFalse (by simp)
  | .ok a, .ok b =>
    if h : a = b then .isTrue (by rw [h]) else .isFalse (by simp [h])

theorem auxGet_eq_zero (a : List (Nat × Int)) (p : Nat)
    (h : ∀ q ∈ a, q.1 ≠ p) : auxGet a p = 0 := by
  induction a with
  | nil => rfl
  | cons hd tl ih =>
    simp only [auxGet]
    rw [if_neg (h hd (List.mem_cons_self hd tl))]
    exact ih fun q hq => h q (List.mem_cons_of_mem hd hq)

theorem getD_set_self (l : List Int) (p : Nat) (v d : Int)
    (h : p < l.length) : (l.set p v).getD p d = v := by
  induction l generalizing p with
  | nil => simp at h
  | cons hd tl ih =>
    cases p with
    | zero => rfl
    | succ n =>
      simp only [List.set, List.getD, List.getElem?_cons_succ] at *
      exact ih n (by simpa using h)

theorem write_mem_length (s : Program) (p : Nat) (v : Int) :
    (s.write p v).mem.length = s.mem.length := by
  unfold Program.write
  split <;> simp

theorem execute_mem_length (s s2 : Program) (code : Opcode)
    (h : s.execute code = .ok s2) : s2.mem.length = s.mem.length := by
  cases code with
  | Add m0 m1 m2 =>
    simp only [Program.execute] at h
    cases hq : s.get_relative_position 3 m2 with
    | error e => rw [hq] at h; cases h
    | ok p => rw [hq] at h; cases h; exact write_mem_length s p _
  | Multiply m0 m1 m2 =>
    simp only [Program.execute] at h
    cases hq : s.get_relative_position 3 m2 with
    | error e => rw [hq] at h; cases h
    | ok p => rw [hq] at h; cases h; exact write_mem_length s p _
  | LessThan m0 m1 m2 =>
    simp only [Program.execute] at h
    cases hq : s.get_relative_position 3 m2 with
    | error e => rw [hq] at h; cases h
    | ok p => rw [hq] at h; cases h; exact write_mem_length s p _
  | Equals m0 m1 m2 =>
    simp only [Program.execute] at h
    cases hq : s.get_relative_position 3 m2 with
    | error e => rw [hq] at h; cases h
    | ok p => rw [hq] at h; cases h; exact write_mem_length s p _
  | Input m0 =>
    simp only [Program.execute] at h
    cases hi : s.input with
    | nil => rw [hi] at h; cases h
    | cons n rest =>
      rw [hi] at h
      cases hq : s.get_relative_position 1 m0 with
      | error e => rw [hq] at h; cases h
      | ok p => rw [hq] at h; cases h; exact write_mem_length s p _
  | JumpIfTrue m0 m1 => cases h; rfl
  | JumpIfFalse m0 m1 => cases h; rfl
  | SetRelBase m0 => cases h; rfl
  | Output m0 => cases h; rfl
  | Halt => cases h; rfl

theorem stepOnce_mem_length (s s2 : Program)
    (h : stepOnce s = .ok s2) : s2.mem.length = s.mem.length := by
  unfold stepOnce at h
  cases hc : from_num (s.read s.pointer) with
  | error e => rw [hc] at h; cases h
  | ok op => rw [hc] at h; exact execute_mem_length s s2 op h

theorem run_succ_eq (fuel : Nat) (s : Program) :
    run (fuel + 1) s =
      match stepOnce s with
      | .error e => some (.error e)
      | .ok s2 =>
        if s2.pointer = s.pointer then some (.ok s2) else run fuel s2 := rfl

theorem run_mem_length : ∀ (fuel : Nat) (s m : Program),
    run fuel s = some (.ok m) → m.mem.length = s.mem.length := by
  intro fuel
  induction fuel with
  | zero => intro s m h; cases h
  | succ n ih =>
    intro s m h
    rw [run_succ_eq] at h
    split at h
    · simp at h
    · rename_i s2 heq
      split at h
      · simp only [Option.some.injEq, Except.ok.injEq] at h
        rw [← h]
        exact stepOnce_mem_length s s2 heq
      · exact (ih s2 m h).trans (stepOnce_mem_length s s2 heq)

/-! ## Claim theorems -/

/-- C1: running `[1,9,10,3,2,3,11,0,99,30,40,50]` with `run` until the loop
stops leaves memory address 0 holding 3500. -/
theorem run_day2_example_leaves_3500 :
    finalRead (run 10 (mkProgram [1, 9, 10, 3, 2, 3, 11, 0, 99, 30, 40, 50] [])) 0 =
      some 3500 := by
  decide

/-- C3: the `run` loop executes one fetch-decode-execute per iteration and
stops exactly when the iteration leaves the pointer unchanged; `halt` is the
identity on the state, so the loop stops right after decoding a Halt, and by
the same pointer-stasis policy it stops after any instruction whose new
pointer equals the old one (such as a jump to its own address). -/
theorem run_stop_policy (s s2 : Program) (fuel : Nat)
    (h : stepOnce s = .ok s2) :
    Program.execute s Opcode.Halt = .ok s ∧
    run (fuel + 1) s =
      (if s2.pointer = s.pointer then some (.ok s2) else run fuel s2) ∧
    (from_num (s.read s.pointer) = .ok Opcode.Halt →
      run (fuel + 1) s = some (.ok s)) := by
  refine ⟨rfl, ?_, ?_⟩
  · rw [run_succ_eq, h]
  · intro hh
    have hstep : stepOnce s = .ok s := by
      unfold stepOnce
      rw [hh]
      rfl
    have hrun : run (fuel + 1) s =
        if s.pointer = s.pointer then some (.ok s) else run fuel s := by
      rw [run_succ_eq, hstep]
    rw [hrun, if_pos rfl]

theorem run_stop_policy_witness :
    Program.execute (mkProgram [99] []) Opcode.Halt = .ok (mkProgram [99] []) ∧
    run 1 (mkProgram [99] []) =
      (if (mkProgram [99] []).pointer = (mkProgram [99] []).pointer
       then some (.ok (mkProgram [99] [])) else run 0 (mkProgram [99] [])) ∧
    (from_num ((mkProgram [99] []).read (mkProgram [99] []).pointer) =
        .ok Opcode.Halt →
      run 1 (mkProgram [99] []) = some (.ok (mkProgram [99] []))) :=
  run_stop_policy (mkProgram [99] []) (mkProgram [99] []) 0 (by decide)

/-- C5: JumpIfTrue sets the pointer to the second read operand (cast to an
address) when the first read operand is nonzero and otherwise advances the
pointer by 3; JumpIfFalse does the same with the zero condition; for any
operand in the address range the cast is the identity. -/
theorem jump_semantics (s : Program) (m0 m1 : Mode) :
    s.execute (.JumpIfTrue m0 m1) =
      .ok { s with pointer :=
              if s.get_param 1 m0 ≠ 0 then toAddr (s.get_param 2 m1)
              else s.pointer + 3 } ∧
    s.execute (.JumpIfFalse m0 m1) =
      .ok { s with pointer :=
              if s.get_param 1 m0 = 0 then toAddr (s.get_param 2 m1)
              else s.pointer + 3 } ∧
    ∀ v : Int, 0 ≤ v → v < 2 ^ 64 → toAddr v = v.toNat := by
  refine ⟨rfl, rfl, fun v h0 h1 => ?_⟩
  unfold toAddr
  have h64 : (2 : Int) ^ 64 = 18446744073709551616 := by norm_num
  rw [h64] at h1 ⊢
  omega

theorem jump_semantics_witness : toAddr 5 = (5 : Int).toNat :=
  (jump_semantics (mkProgram [] []) .Position .Position).2.2 5 (by decide)
    (by decide)

/-- C7 counterexample: Immediate-mode write-address resolution raises the
invalid-addressing-mode condition as a `panic!` — an uncontrolled process
abort — not as a structured error the caller can react to. -/
theorem immediate_write_mode_panic_cex :
    (mkProgram [99] []).get_relative_position 3 Mode.Inmediate =
      .error Err.panicInvalidWriteMode ∧
    Err.isPanic Err.panicInvalidWriteMode = true := by
  decide

/-- C7 amended: for every state and parameter offset, resolving a write
address in Immediate mode fails with the invalid-addressing-mode condition,
and the source surfaces it as a `panic!` (process abort), not as a
structured error returned to the caller. -/
theorem immediate_write_mode_invalid (s : Program) (offset : Nat) :
    s.get_relative_position offset Mode.Inmediate =
      .error Err.panicInvalidWriteMode ∧
    Err.isPanic Err.panicInvalidWriteMode = true :=
  ⟨rfl, rfl⟩

theorem read_write_same (s : Program) (p : Nat) (v : Int) :
    (s.write p v).read p = v := by
  unfold Program.write Program.read
  by_cases h : p < s.mem.length
  · rw [if_pos h]
    simp only [List.length_set]
    rw [if_pos h]
    exact getD_set_self s.mem p v 0 h
  · rw [if_neg h]
    simp only
    rw [if_neg h]
    simp [auxGet]

/-- C2: a value written at an address at or beyond the initial program
length and then read back yields that value; such an address that was never
written reads as zero; and the same write-then-read-back law holds at every
address of either region, so the auxiliary region behaves identically to
the primary one. -/
theorem aux_region_semantics (s : Program) (p : Nat) (v : Int)
    (hp : s.mem.length ≤ p) :
    (s.write p v).read p = v ∧
    ((∀ q ∈ s.aux_mem, q.1 ≠ p) → s.read p = 0) ∧
    (∀ (p2 : Nat) (v2 : Int), (s.write p2 v2).read p2 = v2) := by
  refine ⟨read_write_same s p v, fun hnone => ?_,
    fun p2 v2 => read_write_same s p2 v2⟩
  unfold Program.read
  rw [if_neg (by omega)]
  exact auxGet_eq_zero s.aux_mem p hnone

theorem aux_region_semantics_witness :
    ((mkProgram [99] []).write 7 42).read 7 = 42 ∧
    ((∀ q ∈ (mkProgram [99] []).aux_mem, q.1 ≠ 7) →
      (mkProgram [99] []).read 7 = 0) ∧
    (∀ (p2 : Nat) (v2 : Int),
      ((mkProgram [99] []).write p2 v2).read p2 = v2) :=
  aux_region_semantics (mkProgram [99] []) 7 42 (by decide)

/-- C4 counterexample: with the third addressing mode Immediate, Add
neither writes nor advances the pointer — it aborts with the
invalid-addressing-mode panic — so the property does not hold for every
addressing-mode triple. -/
theorem arith_write_mode_cex :
    (mkProgram [1, 0, 0, 0] []).execute
        (.Add .Position .Position .Inmediate) =
      .error Err.panicInvalidWriteMode := rfl

/-- C4 amended: for every state and every addressing-mode triple whose
third (write-target) mode is not Immediate, Add writes the sum of the two
read operands, Multiply their product, LessThan writes 1 if the first is
less than the second and 0 otherwise, Equals writes 1 if they are equal and
0 otherwise, each at the resolved write address of the third parameter, and
each advances the pointer by 4. -/
theorem arith_cmp_semantics (s : Program) (m0 m1 m2 : Mode)
    (h : m2 ≠ Mode.Inmediate) :
    ∃ p, s.get_relative_position 3 m2 = .ok p ∧
      s.execute (.Add m0 m1 m2) =
        .ok { s.write p (s.get_param 1 m0 + s.get_param 2 m1) with
              pointer := s.pointer + 4 } ∧
      s.execute (.Multiply m0 m1 m2) =
        .ok { s.write p (s.get_param 1 m0 * s.get_param 2 m1) with
              pointer := s.pointer + 4 } ∧
      s.execute (.LessThan m0 m1 m2) =
        .ok { s.write p
                (if s.get_param 1 m0 < s.get_param 2 m1 then 1 else 0) with
              pointer := s.pointer + 4 } ∧
      s.execute (.Equals m0 m1 m2) =
        .ok { s.write p
                (if s.get_param 1 m0 = s.get_param 2 m1 then 1 else 0) with
              pointer := s.pointer + 4 } := by
  cases m2 with
  | Inmediate => exact absurd rfl h
  | Position => exact ⟨_, rfl, rfl, rfl, rfl, rfl⟩
  | Relative => exact ⟨_, rfl, rfl, rfl, rfl, rfl⟩

/-- A small concrete machine for instantiating the arithmetic-instruction
semantics. -/
def M4 : Program := mkProgram [1101, 2, 3, 0] []

theorem arith_cmp_semantics_witness :
    ∃ p, M4.get_relative_position 3 Mode.Position = .ok p ∧
      M4.execute (.Add .Inmediate .Inmediate .Position) =
        .ok { M4.write p (M4.get_param 1 .Inmediate + M4.get_param 2 .Inmediate) with
              pointer := M4.pointer + 4 } ∧
      M4.execute (.Multiply .Inmediate .Inmediate .Position) =
        .ok { M4.write p (M4.get_param 1 .Inmediate * M4.get_param 2 .Inmediate) with
              pointer := M4.pointer + 4 } ∧
      M4.execute (.LessThan .Inmediate .Inmediate .Position) =
        .ok { M4.write p
                (if M4.get_param 1 .Inmediate < M4.get_param 2 .Inmediate then 1 else 0) with
              pointer := M4.pointer + 4 } ∧
      M4.execute (.Equals .Inmediate .Inmediate .Position) =
        .ok { M4.write p
                (if M4.get_param 1 .Inmediate = M4.get_param 2 .Inmediate then 1 else 0) with
              pointer := M4.pointer + 4 } :=
  arith_cmp_semantics M4 .Inmediate .Inmediate .Position (by decide)

/-- C6: running `[3,0,4,0,99]` with a receiver yielding 5 once (the
interactive fallback is never taken) and an initially empty sender produces
exactly the output sequence `[5]`; Input writes the received value at the
resolved write address of its single parameter and advances the pointer
by 2; Output appends the read operand of its single parameter to the sender
and advances the pointer by 2. -/
theorem echo_program_io (s : Program) (m0 : Mode) (v : Int) (rest : List Int)
    (h0 : m0 ≠ Mode.Inmediate) (h1 : s.input = v :: rest) :
    finalOutputs (run 10 (mkProgram [3, 0, 4, 0, 99] [5])) = some [5] ∧
    (∃ p, s.get_relative_position 1 m0 = .ok p ∧
      s.execute (.Input m0) =
        .ok { s.write p v with input := rest, pointer := s.pointer + 2 }) ∧
    (∀ m : Mode, s.execute (.Output m) =
      .ok { s with output := s.output ++ [s.get_param 1 m],
                   pointer := s.pointer + 2 }) := by
  refine ⟨by decide, ?_, fun m => rfl⟩
  cases m0 with
  | Inmediate => exact absurd rfl h0
  | Position =>
    refine ⟨_, rfl, ?_⟩
    simp only [Program.execute]
    rw [h1]
    rfl
  | Relative =>
    refine ⟨_, rfl, ?_⟩
    simp only [Program.execute]
    rw [h1]
    rfl

theorem echo_program_io_witness :
    finalOutputs (run 10 (mkProgram [3, 0, 4, 0, 99] [5])) = some [5] :=
  (echo_program_io (mkProgram [3, 0, 4, 0, 99] [5]) .Position 5 []
    (by decide) rfl).1

/-- C8 counterexample: with the pointer in the auxiliary region (address 1
of the one-cell program `[99]`, with 99 stored in the auxiliary map at 1),
the plain run step fetches through `read` and halts, while the debug-mode
step indexes the primary `Vec` directly and aborts out of bounds: the two
paths diverge on the fetch of the raw instruction. -/
theorem debug_step_diverges_cex :
    stepDebug debugDivergeProgram = .error Err.panicIndexOutOfBounds ∧
    stepOnce debugDivergeProgram = .ok debugDivergeProgram ∧
    stepDebug debugDivergeProgram ≠ stepOnce debugDivergeProgram := by
  refine ⟨rfl, rfl, ?_⟩
  decide

/-- C8 amended: both loops dispatch through the same decode-and-`execute`
primitive, so whenever the pointer is inside the primary region a
debug-mode step has exactly the same effect on memory, pointer and relative
base as a plain run step; the two fetches differ — `run` reads through
`read`, `run_debug_mode` indexes the primary `Vec` directly — so the paths
diverge when the pointer is at or beyond the initial program length. -/
theorem debug_step_agrees_on_primary (s : Program)
    (h : s.pointer < s.mem.length) : stepDebug s = stepOnce s := by
  have hg : s.mem[s.pointer]? = some (s.mem.getD s.pointer 0) := by
    rw [List.getElem?_eq_getElem h, List.getD_eq_getElem?_getD,
      List.getElem?_eq_getElem h]
    rfl
  have hr : s.read s.pointer = s.mem.getD s.pointer 0 := by
    unfold Program.read
    rw [if_pos h]
  unfold stepDebug stepOnce
  rw [hg, hr]

theorem debug_step_agrees_on_primary_witness :
    stepDebug (mkProgram [99] []) = stepOnce (mkProgram [99] []) :=
  debug_step_agrees_on_primary (mkProgram [99] []) (by decide)

/-- C9: the primary region keeps the loaded program's length under every
write, every executed instruction and every run; a write below the initial
length edits the primary sequence in place and leaves the sparse map alone,
a write at or beyond it inserts into the sparse map and leaves the primary
sequence alone, and reads route between the two regions the same way. -/
theorem primary_region_invariant (s s2 m : Program) (p fuel : Nat) (v : Int)
    (code : Opcode) :
    (s.write p v).mem.length = s.mem.length ∧
    (p < s.mem.length →
      (s.write p v).mem = s.mem.set p v ∧ (s.write p v).aux_mem = s.aux_mem ∧
      s.read p = s.mem.getD p 0) ∧
    (s.mem.length ≤ p →
      (s.write p v).mem = s.mem ∧ (s.write p v).aux_mem = (p, v) :: s.aux_mem ∧
      s.read p = auxGet s.aux_mem p) ∧
    (s.execute code = .ok s2 → s2.mem.length = s.mem.length) ∧
    (run fuel s = some (.ok m) → m.mem.length = s.mem.length) := by
  refine ⟨write_mem_length s p v, fun h => ⟨?_, ?_, ?_⟩,
    fun h => ⟨?_, ?_, ?_⟩, execute_mem_length s s2 code,
    run_mem_length fuel s m⟩
  · unfold Program.write
    rw [if_pos h]
  · unfold Program.write
    rw [if_pos h]
  · unfold Program.read
    rw [if_pos h]
  · unfold Program.write
    rw [if_neg (by omega)]
  · unfold Program.write
    rw [if_neg (by omega)]
  · unfold Program.read
    rw [if_neg (by omega)]

theorem primary_region_invariant_witness :
    ((mkProgram [99] []).write 0 7).mem.length =
      (mkProgram [99] []).mem.length ∧
    ((mkProgram [99] []).write 0 7).mem = (mkProgram [99] []).mem.set 0 7 ∧
    ((mkProgram [99] []).write 3 7).aux_mem = (3, 7) :: (mkProgram [99] []).aux_mem :=
  ⟨(primary_region_invariant (mkProgram [99] []) (mkProgram [99] [])
      (mkProgram [99] []) 0 1 7 .Halt).1,
   ((primary_region_invariant (mkProgram [99] []) (mkProgram [99] [])
      (mkProgram [99] []) 0 1 7 .Halt).2.1 (by decide)).1,
   ((primary_region_invariant (mkProgram [99] []) (mkProgram [99] [])
      (mkProgram [99] []) 3 1 7 .Halt).2.2.1 (by decide)).2.1⟩

/-- C10: write-address resolution never fails on a negative computed
address — for a non-Immediate mode it always yields an address — and the
cast wraps modulo `2^64`, so a negative computed address lands at its value
plus `2^64`, beyond the primary region, and a Position-mode read through a
negative literal returns the auxiliary-memory cell at the wrapped address
(zero if never written) instead of signalling an error. -/
theorem negative_address_wrapping (s : Program) (offset : Nat) (m : Mode)
    (v : Int) (hm : m ≠ Mode.Inmediate) (hv0 : v < 0)
    (hv1 : -(2 ^ 64 : Int) ≤ v)
    (hlen : (s.mem.length : Int) < 2 ^ 64 + v) :
    (∃ a, s.get_relative_position offset m = .ok a) ∧
    toAddr v = (v % 2 ^ 64).toNat ∧
    (toAddr v : Int) = 2 ^ 64 + v ∧
    s.read (toAddr v) = auxGet s.aux_mem (toAddr v) ∧
    (s.read (s.pointer + offset) = v →
      s.get_param offset Mode.Position = auxGet s.aux_mem (toAddr v)) := by
  have h64 : (2 : Int) ^ 64 = 18446744073709551616 := by norm_num
  rw [h64] at hv1 hlen
  have haddr : (toAddr v : Int) = 18446744073709551616 + v := by
    unfold toAddr
    rw [h64]
    omega
  have hnotlt : ¬ toAddr v < s.mem.length := by omega
  have hread : s.read (toAddr v) = auxGet s.aux_mem (toAddr v) := by
    unfold Program.read
    rw [if_neg hnotlt]
  refine ⟨?_, rfl, by rw [h64]; exact haddr, hread, ?_⟩
  · cases m with
    | Inmediate => exact absurd rfl hm
    | Position => exact ⟨_, rfl⟩
    | Relative => exact ⟨_, rfl⟩
  · intro hv
    show s.read (toAddr (s.read (s.pointer + offset))) =
      auxGet s.aux_mem (toAddr v)
    rw [hv, hread]

/-- A small concrete machine for instantiating the negative-address
behaviour. -/
def M10 : Program := mkProgram [104] []

theorem negative_address_wrapping_witness :
    (∃ a, M10.get_relative_position 1 Mode.Position = .ok a) ∧
    toAddr (-3) = ((-3 : Int) % 2 ^ 64).toNat ∧
    (toAddr (-3) : Int) = 2 ^ 64 + (-3) ∧
    M10.read (toAddr (-3)) = auxGet M10.aux_mem (toAddr (-3)) ∧
    (M10.read (M10.pointer + 1) = -3 →
      M10.get_param 1 Mode.Position = auxGet M10.aux_mem (toAddr (-3))) :=
  negative_address_wrapping M10 1 .Position (-3) (by decide) (by decide)
    (by norm_num) (by norm_num [M10, mkProgram])

end Intcode
